import Mathlib

/-
Verification of the `rlua_json` value bridge (src/lib.rs).

The crate converts between `serde_json::Value` (the Document value model)
and `mlua::Value` (the Lua Dynamic value model):

* `JsonWrapperValue::into_lua`  — Document value → Dynamic value (encode)
* `JsonWrapperValue::from_lua`  — Dynamic value → Document value (decode)

Modelling decisions (each is noted again at the definition it concerns):

* Lua strings are byte strings; they are modelled as `List Nat` (each entry
  a byte value < 256 in every value the theorems touch).  `mlua`'s
  `String::to_str` UTF-8 validation is modelled by an executable UTF-8
  decoder written against the standard UTF-8 well-formedness rules, which
  is exactly the check `str::from_utf8` performs.
* 64-bit floats are modelled as exact rationals plus the three non-finite
  shapes (`F64`).  No verified claim depends on rounding of `u64 → f64`
  conversions or on the text produced for a float-valued table key.
* A Lua table is modelled as its list of key/value entries in iteration
  order.  Storing a `Nil` value under a key stores nothing (Lua tables
  cannot hold nil values; `lua_rawset` with a nil value erases the key),
  so the encoder model drops pairs whose encoded value is `Nil`, exactly
  as `Table::raw_set`, used by `create_table_from`, behaves.
* `serde_json::Map` (a `BTreeMap` by default) is modelled as an
  association list in iteration order; `insert` replaces an existing
  binding in place and otherwise appends.  In every run the theorems
  describe, fresh keys arrive in the order the map would iterate them,
  so the list coincides with the map's iteration order.
* Rust panics are explicit: results live in `LuaResult`, whose third
  constructor `panicked` models a Rust panic (the `unwrap()` in the
  decoder's table loop).  Errors are `mlua::Error` values restricted to
  the two conversion-error constructors the crate uses.
-/

namespace RluaJson

/-! ## UTF-8 byte strings

A Lua string is a byte string.  `utf8EncodeChar`/`utf8Encode` model the
UTF-8 bytes of a Rust `String` (the bytes `&str::as_bytes` exposes and
`Lua::create_string` copies).  `utf8DecodeAux`/`utf8Decode` model the
validation-plus-view `mlua::String::to_str` performs via
`str::from_utf8`, as a byte-at-a-time automaton enforcing the standard
UTF-8 well-formedness rules: shortest form (tracked by the minimum `m`
installed by the start byte), no surrogates, code points ≤ 0x10FFFF,
continuation bytes in 0x80..0xBF, and no truncated sequences.  `k` is
the number of continuation bytes still expected and `v` the code point
accumulated so far. -/

def utf8EncodeChar (c : Char) : List Nat :=
  if c.toNat < 0x80 then
    [c.toNat]
  else if c.toNat < 0x800 then
    [0xC0 + c.toNat / 64, 0x80 + c.toNat % 64]
  else if c.toNat < 0x10000 then
    [0xE0 + c.toNat / 4096, 0x80 + c.toNat / 64 % 64, 0x80 + c.toNat % 64]
  else
    [0xF0 + c.toNat / 262144, 0x80 + c.toNat / 4096 % 64, 0x80 + c.toNat / 64 % 64,
      0x80 + c.toNat % 64]

def utf8EncodeList : List Char → List Nat
  | [] => []
  | c :: cs => utf8EncodeChar c ++ utf8EncodeList cs

def utf8Encode (s : String) : List Nat :=
  utf8EncodeList s.data

def utf8DecodeAux : List Nat → Nat → Nat → Nat → Option (List Char)
  | [], k, _, _ => if k = 0 then some [] else none
  | b :: rest, k + 1, v, m =>
    if 0x80 ≤ b ∧ b < 0xC0 then
      if k = 0 then
        if m ≤ v * 64 + (b - 0x80) ∧
            ¬(0xD800 ≤ v * 64 + (b - 0x80) ∧ v * 64 + (b - 0x80) ≤ 0xDFFF) ∧
            v * 64 + (b - 0x80) ≤ 0x10FFFF then
          (utf8DecodeAux rest 0 0 0).map (fun cs => Char.ofNat (v * 64 + (b - 0x80)) :: cs)
        else none
      else
        utf8DecodeAux rest k (v * 64 + (b - 0x80)) m
    else none
  | b :: rest, 0, _, _ =>
    if b < 0x80 then
      (utf8DecodeAux rest 0 0 0).map (fun cs => Char.ofNat b :: cs)
    else if b < 0xC2 then
      none
    else if b < 0xE0 then
      utf8DecodeAux rest 1 (b - 0xC0) 0x80
    else if b < 0xF0 then
      utf8DecodeAux rest 2 (b - 0xE0) 0x800
    else if b < 0xF5 then
      utf8DecodeAux rest 3 (b - 0xF0) 0x10000
    else
      none

def utf8Decode (bs : List Nat) : Option String :=
  (utf8DecodeAux bs 0 0 0).map String.mk

/-! ## Decimal formatting of integer table keys

`mlua`'s `TablePairs` iterator converts every key with
`FromLua for mlua::String`, which calls `Lua::coerce_string`; for an
`Integer` key Lua produces its decimal form (`"%d"`).  That external
formatter is modelled by `natToString`/`intToString` below (fuel makes
the digit recursion structural; fuel `n` is always sufficient because
the value shrinks by a factor of 10 each step). -/

def digitCh (d : Nat) : Char := Char.ofNat (48 + d)

def natDigitsRevFuel : Nat → Nat → List Nat
  | 0, n => [n]
  | fuel + 1, n => if n < 10 then [n] else n % 10 :: natDigitsRevFuel fuel (n / 10)

def natToString (n : Nat) : String := ⟨(natDigitsRevFuel n n).reverse.map digitCh⟩

def intToString (i : Int) : String :=
  if i < 0 then "-" ++ natToString i.natAbs else natToString i.toNat

/-- Little-endian value of a digit list; used only to invert `natDigitsRevFuel`. -/
def digitsVal : List Nat → Nat
  | [] => 0
  | d :: ds => d + 10 * digitsVal ds

/-! ## Value models

`N` is `serde_json`'s internal number representation (`PosInt(u64)`,
`NegInt(i64)`, `Float(f64)`); machine integers are modelled as
`Nat`/`Int` with the range invariants recorded in `N.wf`, and the float
payload as an exact rational (every `N::Float` a default-feature
`serde_json` build can hold is finite, since `Number::from_f64` rejects
non-finite input).  `JsonValue` is `serde_json::Value` with the `Map`
modelled as an association list in iteration order.  `LuaValue` is
`mlua::Value`; the payloads of the host-only variants (`Function`,
`Thread`, `UserData`, `Error`, `Other`) and of `LightUserData` are
irrelevant to the crate, which never inspects them, so they are dropped.
`LuaResult` is `mlua::Result` extended with an explicit `panicked`
outcome so that Rust panics are visible in the model. -/

inductive F64 where
  | finite (q : Rat)
  | nan
  | inf
  | neginf
deriving DecidableEq

inductive MluaError where
  | ToLuaConversionError (src : String) (dst : String) (message : Option String)
  | FromLuaConversionError (src : String) (dst : String) (message : Option String)
deriving DecidableEq

inductive LuaResult (α : Type) where
  | ok (a : α)
  | err (e : MluaError)
  | panicked (msg : String)
deriving DecidableEq

def LuaResult.isOk {α : Type} : LuaResult α → Bool
  | .ok _ => true
  | _ => false

inductive N where
  | PosInt (n : Nat)
  | NegInt (i : Int)
  | Float (q : Rat)
deriving DecidableEq

inductive JsonValue where
  | Null
  | Bool (b : Bool)
  | Number (n : N)
  | String (s : String)
  | Array (a : List JsonValue)
  | Object (o : List (String × JsonValue))

inductive LuaValue where
  | Nil
  | Boolean (b : Bool)
  | LightUserData
  | Integer (i : Int)
  | Number (x : F64)
  | String (bytes : List Nat)
  | Table (entries : List (LuaValue × LuaValue))
  | Function
  | Thread
  | UserData
  | Error
  | Other

/-- Range invariants of `serde_json`'s number type: `PosInt` holds a `u64`,
`NegInt` holds a negative `i64` (the library only constructs `NegInt` for
negative input). -/
def N.wf : N → Bool
  | .PosInt n => decide (n < 2 ^ 64)
  | .NegInt i => decide (-(2 ^ 63) ≤ i) && decide (i < 0)
  | .Float _ => true

/-- `serde_json::Number::as_i64`: `PosInt` within `i64::MAX`, any `NegInt`,
never a `Float`. -/
def N.as_i64 : N → Option Int
  | .PosInt n => if n ≤ 9223372036854775807 then some (Int.ofNat n) else none
  | .NegInt i => some i
  | .Float _ => none

/-- `serde_json::Number::as_f64`: `Some(n as f64)` in all three cases.  The
`u64`/`i64` → `f64` conversion is modelled as the exact embedding into the
rationals; no verified claim depends on its rounding. -/
def N.as_f64 : N → Option F64
  | .PosInt n => some (.finite (n : Rat))
  | .NegInt i => some (.finite (i : Rat))
  | .Float q => some (.finite q)

/-- `serde_json` `impl From<i64> for Value` (via `Number::from`): negative
input becomes `NegInt`, non-negative becomes `PosInt`. -/
def Value_from_i64 (i : Int) : JsonValue :=
  if i < 0 then .Number (.NegInt i) else .Number (.PosInt i.toNat)

/-- `serde_json` `impl From<f64> for Value`:
`Number::from_f64(f).map_or(Value::Null, Value::Number)`, and
`Number::from_f64` accepts exactly the finite floats. -/
def Value_from_f64 : F64 → JsonValue
  | .finite q => .Number (.Float q)
  | _ => .Null

/-- `mlua::Value::type_name`, for the error payload of a failed key
coercion. -/
def luaTypeName : LuaValue → String
  | .Nil => "nil"
  | .Boolean _ => "boolean"
  | .LightUserData => "lightuserdata"
  | .Integer _ => "integer"
  | .Number _ => "number"
  | .String _ => "string"
  | .Table _ => "table"
  | .Function => "function"
  | .Thread => "thread"
  | .UserData => "userdata"
  | .Error => "error"
  | .Other => "other"

/-- Stand-in for Lua's `%.14g` float formatting, used only for
float-valued table keys; no verified claim depends on the exact text,
only on its being some UTF-8 string. -/
def fmtF64 : F64 → String
  | .finite q => toString q
  | .nan => "nan"
  | .inf => "inf"
  | .neginf => "-inf"

/-- `mlua::String::to_str` (the `key.to_str()?` / `s.to_str()?` calls):
a UTF-8 view of the byte string, or `mlua`'s invalid-UTF-8 conversion
error (payload modelled). -/
def toStr (bs : List Nat) : LuaResult String :=
  match utf8Decode bs with
  | some s => .ok s
  | none => .err (.FromLuaConversionError "string" "&str" (some "invalid utf-8"))

/-- `FromLua for mlua::String` as used by `t.pairs::<mlua::String,
mlua::Value>()`: `Lua::coerce_string` keeps a string as is, formats an
`Integer`/`Number` key with Lua's `tostring`, and rejects every other
variant with a conversion error naming the variant (payload modelled
from `mlua`). -/
def luaStringFromLua : LuaValue → LuaResult (List Nat)
  | .String bs => .ok bs
  | .Integer i => .ok (utf8Encode (intToString i))
  | .Number x => .ok (utf8Encode (fmtF64 x))
  | v => .err (.FromLuaConversionError (luaTypeName v) "String" (some "expected string or number"))

/-- `serde_json::Map::insert`: replace an existing binding in place,
otherwise append (see the association-list modelling note at the top). -/
def mapInsert : List (String × JsonValue) → String → JsonValue → List (String × JsonValue)
  | [], k, v => [(k, v)]
  | (k', v') :: rest, k, v =>
    if k' = k then (k, v) :: rest else (k', v') :: mapInsert rest k v

/-- The decoder's `o.as_object_mut()` followed by `insert`:
`as_object_mut` is `Some` exactly on `Object`. -/
def as_object_insert : JsonValue → String → JsonValue → Option JsonValue
  | .Object es, k, v => some (.Object (mapInsert es k v))
  | _, _, _ => none

/-! ## The encoder: `JsonWrapperValue::into_lua` (src/lib.rs lines 44-82)

`create_table_from_obj`/`create_table_from_arr` model
`lua.create_table_from(iter)` for the `Object` and `Array` arms: each
pair is converted and `raw_set` into the fresh table in iteration order,
the first conversion error aborting the call.  For the `Array` arm the
iterator is `a.into_iter().map(..).enumerate()`, so the keys are the
0-based positions as integers.  `raw_set` with a `Nil` value stores
nothing (a Lua table cannot hold nil), hence the `.Nil => tail` arms. -/

mutual

def into_lua : JsonValue → LuaResult LuaValue
  | .Null => .ok .Nil
  | .String s => .ok (.String (utf8Encode s))
  | .Number n =>
    match n.as_i64 with
    | some i => .ok (.Integer i)
    | none =>
      match n.as_f64 with
      | some f => .ok (.Number f)
      | none => .err (.ToLuaConversionError "JsonValue::Number" "Value::Number" none)
  | .Bool b => .ok (.Boolean b)
  | .Object o =>
    match create_table_from_obj o with
    | .ok entries => .ok (.Table entries)
    | .err e => .err e
    | .panicked m => .panicked m
  | .Array a =>
    match create_table_from_arr a 0 with
    | .ok entries => .ok (.Table entries)
    | .err e => .err e
    | .panicked m => .panicked m

def create_table_from_obj : List (String × JsonValue) → LuaResult (List (LuaValue × LuaValue))
  | [] => .ok []
  | (k, v) :: rest =>
    match into_lua v with
    | .err e => .err e
    | .panicked m => .panicked m
    | .ok lv =>
      match create_table_from_obj rest with
      | .err e => .err e
      | .panicked m => .panicked m
      | .ok tail =>
        match lv with
        | .Nil => .ok tail
        | _ => .ok ((.String (utf8Encode k), lv) :: tail)

def create_table_from_arr : List JsonValue → Nat → LuaResult (List (LuaValue × LuaValue))
  | [], _ => .ok []
  | v :: rest, i =>
    match into_lua v with
    | .err e => .err e
    | .panicked m => .panicked m
    | .ok lv =>
      match create_table_from_arr rest (i + 1) with
      | .err e => .err e
      | .panicked m => .panicked m
      | .ok tail =>
        match lv with
        | .Nil => .ok tail
        | _ => .ok ((.Integer (Int.ofNat i), lv) :: tail)

end

/-! ## The decoder: `JsonWrapperValue::from_lua` (src/lib.rs lines 84-127)

`table_pairs_loop` is the `for pair in t.pairs::<mlua::String,
mlua::Value>()` loop with its accumulator `o` (initially `json!({})`,
i.e. the empty `Object`): key coercion (`pair?`), UTF-8 view
(`key.to_str()?`), recursive decode of the value, then
`o.as_object_mut().unwrap().insert(..)` — the `unwrap` panicking if the
accumulator were not an object. -/

mutual

def from_lua : LuaValue → LuaResult JsonValue
  | .Nil => .ok .Null
  | .Boolean b => .ok (.Bool b)
  | .LightUserData =>
    .err (.FromLuaConversionError "LightUserData" "JsonValue" (some "Impossible to convert"))
  | .Integer i => .ok (Value_from_i64 i)
  | .Number x => .ok (Value_from_f64 x)
  | .String bs =>
    match toStr bs with
    | .ok s => .ok (.String s)
    | .err e => .err e
    | .panicked m => .panicked m
  | .Table t => table_pairs_loop t (.Object [])
  | .Function =>
    .err (.FromLuaConversionError "Function" "JsonValue" (some "Impossible to convert"))
  | .Thread =>
    .err (.FromLuaConversionError "Thread" "JsonValue" (some "Impossible to convert"))
  | .UserData =>
    .err (.FromLuaConversionError "UserData" "JsonValue" (some "Impossible to convert"))
  | .Error =>
    .err (.FromLuaConversionError "Error" "JsonValue" (some "Impossible to convert"))
  | .Other =>
    .err (.FromLuaConversionError "Other" "JsonValue" (some "Impossible to convert"))

def table_pairs_loop : List (LuaValue × LuaValue) → JsonValue → LuaResult JsonValue
  | [], o => .ok o
  | (k, v) :: rest, o =>
    match luaStringFromLua k with
    | .err e => .err e
    | .panicked m => .panicked m
    | .ok kb =>
      match toStr kb with
      | .err e => .err e
      | .panicked m => .panicked m
      | .ok ks =>
        match from_lua v with
        | .err e => .err e
        | .panicked m => .panicked m
        | .ok jv =>
          match as_object_insert o ks jv with
          | some o2 => table_pairs_loop rest o2
          | none => .panicked "called Option::unwrap on a None value"

end

/-- `decode ∘ encode`: `from_lua` after `into_lua`, errors passed through
(as in the tests' `into_lua(..)` then `from_lua(..)` sequencing). -/
def decode_encode (v : JsonValue) : LuaResult JsonValue :=
  match into_lua v with
  | .ok lv => from_lua lv
  | .err e => .err e
  | .panicked m => .panicked m

/-! ## Predicates over Document values

`jsonWf` is representability in `serde_json`: number range invariants
and key uniqueness of every `Object` (a `serde_json::Map` cannot hold
duplicate keys).  `numbersPrecise` is the direct numeric policy's
lossless domain: a number with an exact `i64` form or a float.
`intNumbersOnly` is the hypothesis of the spec's §8 round-trip property:
every `Number` has an exact integer (`as_i64`) form.  `simpleValue`
carves out the values on which `decode ∘ encode` is the identity: no
`Array` anywhere and no `Null`-valued object member (a `Nil` value never
reaches a Lua table). -/

def N.isFloat : N → Bool
  | .Float _ => true
  | _ => false

def N.precise (n : N) : Bool :=
  (n.as_i64).isSome || n.isFloat

mutual

def jsonWf : JsonValue → Bool
  | .Null => true
  | .Bool _ => true
  | .String _ => true
  | .Number n => n.wf
  | .Array a => jsonWfList a
  | .Object o => decide ((o.map Prod.fst).Nodup) && jsonWfObj o

def jsonWfList : List JsonValue → Bool
  | [] => true
  | v :: rest => jsonWf v && jsonWfList rest

def jsonWfObj : List (String × JsonValue) → Bool
  | [] => true
  | (_, v) :: rest => jsonWf v && jsonWfObj rest

end

mutual

def numbersPrecise : JsonValue → Bool
  | .Number n => n.precise
  | .Array a => numbersPreciseList a
  | .Object o => numbersPreciseObj o
  | _ => true

def numbersPreciseList : List JsonValue → Bool
  | [] => true
  | v :: rest => numbersPrecise v && numbersPreciseList rest

def numbersPreciseObj : List (String × JsonValue) → Bool
  | [] => true
  | (_, v) :: rest => numbersPrecise v && numbersPreciseObj rest

end

mutual

def intNumbersOnly : JsonValue → Bool
  | .Number n => (n.as_i64).isSome
  | .Array a => intNumbersOnlyList a
  | .Object o => intNumbersOnlyObj o
  | _ => true

def intNumbersOnlyList : List JsonValue → Bool
  | [] => true
  | v :: rest => intNumbersOnly v && intNumbersOnlyList rest

def intNumbersOnlyObj : List (String × JsonValue) → Bool
  | [] => true
  | (_, v) :: rest => intNumbersOnly v && intNumbersOnlyObj rest

end

def isNullValue : JsonValue → Bool
  | .Null => true
  | _ => false

mutual

def simpleValue : JsonValue → Bool
  | .Array _ => false
  | .Object o => simpleObj o
  | _ => true

def simpleObj : List (String × JsonValue) → Bool
  | [] => true
  | (_, v) :: rest => (!isNullValue v) && simpleValue v && simpleObj rest

end

/-! ## The observable shape of `decode ∘ encode`

`jsonNormalize` is the claim-side description of what decoding an
encoded value yields: every `Array` becomes an `Object` keyed by the
decimal form of the 0-based source position of each element, every
`Null`-valued array element or object member disappears (its `Nil`
encoding is never stored in the Lua table; dropped elements still
consume their position), and the other variants are untouched. -/

mutual

def jsonNormalize : JsonValue → JsonValue
  | .Null => .Null
  | .Bool b => .Bool b
  | .Number n => .Number n
  | .String s => .String s
  | .Array a => .Object (normArr a 0)
  | .Object o => .Object (normObj o)

def normArr : List JsonValue → Nat → List (String × JsonValue)
  | [], _ => []
  | v :: rest, i =>
    match v with
    | .Null => normArr rest (i + 1)
    | _ => (natToString i, jsonNormalize v) :: normArr rest (i + 1)

def normObj : List (String × JsonValue) → List (String × JsonValue)
  | [] => []
  | (k, v) :: rest =>
    match v with
    | .Null => normObj rest
    | _ => (k, jsonNormalize v) :: normObj rest

end


/-- The key pipeline of one iteration of the decoder's table loop:
`pair?` (key coercion by `t.pairs::<mlua::String, _>()`) followed by
`key.to_str()?`. -/
def decodeKey (k : LuaValue) : LuaResult String :=
  match luaStringFromLua k with
  | .ok kb => toStr kb
  | .err e => .err e
  | .panicked m => .panicked m

/-- The numeric value a `serde_json` number denotes, as an exact rational. -/
def N.toRat : N → Rat
  | .PosInt n => (n : Rat)
  | .NegInt i => (i : Rat)
  | .Float q => q

/-- Modelled from the spec: the fixed-point/100 numeric strategy of §4.1 is
a variant of the converter that is not present under src/ (src/lib.rs
implements the direct strategy).  Per the spec it encodes every Number as
a Float equal to its value as float multiplied by 0.01 (floats modelled
as exact rationals). -/
def encode_fixed_point_number (n : N) : LuaValue :=
  .Number (.finite (n.toRat * (1 / 100)))

/-! # Theorems -/

theorem utf8DecodeAux_encodeChar (c : Char) (bs : List Nat) :
    utf8DecodeAux (utf8EncodeChar c ++ bs) 0 0 0 =
      (utf8DecodeAux bs 0 0 0).map (fun cs => c :: cs) := by
  have hval : c.toNat < 55296 ∨ (57343 < c.toNat ∧ c.toNat < 1114112) := c.valid
  by_cases h1 : c.toNat < 0x80
  · rw [utf8EncodeChar, if_pos h1, List.cons_append, List.nil_append, utf8DecodeAux,
      if_pos h1, Char.ofNat_toNat]
  · by_cases h2 : c.toNat < 0x800
    · rw [utf8EncodeChar, if_neg h1, if_pos h2, List.cons_append, List.cons_append,
        List.nil_append, utf8DecodeAux,
        if_neg (by omega), if_neg (by omega), if_pos (by omega), utf8DecodeAux,
        if_pos (by constructor <;> omega), if_pos rfl, if_pos (by omega)]
      have he : (0xC0 + c.toNat / 64 - 0xC0) * 64 + (0x80 + c.toNat % 64 - 0x80) = c.toNat := by
        omega
      rw [he, Char.ofNat_toNat]
    · by_cases h3 : c.toNat < 0x10000
      · rw [utf8EncodeChar, if_neg h1, if_neg h2, if_pos h3, List.cons_append, List.cons_append,
          List.cons_append, List.nil_append, utf8DecodeAux,
          if_neg (by omega), if_neg (by omega), if_neg (by omega), if_pos (by omega),
          utf8DecodeAux, if_pos (by constructor <;> omega), if_neg (by omega),
          utf8DecodeAux, if_pos (by constructor <;> omega), if_pos rfl, if_pos (by omega)]
        have he : ((0xE0 + c.toNat / 4096 - 0xE0) * 64 + (0x80 + c.toNat / 64 % 64 - 0x80)) * 64 +
            (0x80 + c.toNat % 64 - 0x80) = c.toNat := by omega
        rw [he, Char.ofNat_toNat]
      · rw [utf8EncodeChar, if_neg h1, if_neg h2, if_neg h3, List.cons_append, List.cons_append,
          List.cons_append, List.cons_append, List.nil_append, utf8DecodeAux,
          if_neg (by omega), if_neg (by omega), if_neg (by omega), if_neg (by omega),
          if_pos (by omega),
          utf8DecodeAux, if_pos (by constructor <;> omega), if_neg (by omega),
          utf8DecodeAux, if_pos (by constructor <;> omega), if_neg (by omega),
          utf8DecodeAux, if_pos (by constructor <;> omega), if_pos rfl, if_pos (by omega)]
        have he : (((0xF0 + c.toNat / 262144 - 0xF0) * 64 +
            (0x80 + c.toNat / 4096 % 64 - 0x80)) * 64 +
            (0x80 + c.toNat / 64 % 64 - 0x80)) * 64 + (0x80 + c.toNat % 64 - 0x80) = c.toNat := by
          omega
        rw [he, Char.ofNat_toNat]

theorem utf8DecodeAux_encodeList (l : List Char) :
    utf8DecodeAux (utf8EncodeList l) 0 0 0 = some l := by
  induction l with
  | nil => rfl
  | cons c cs ih =>
    rw [utf8EncodeList, utf8DecodeAux_encodeChar, ih, Option.map_some']

theorem utf8Decode_encode (s : String) : utf8Decode (utf8Encode s) = some s := by
  rw [utf8Decode, utf8Encode, utf8DecodeAux_encodeList, Option.map_some']


theorem digitsVal_natDigitsRevFuel (fuel n : Nat) (h : n ≤ fuel) :
    digitsVal (natDigitsRevFuel fuel n) = n := by
  induction fuel generalizing n with
  | zero =>
    have : n = 0 := by omega
    subst this
    rfl
  | succ fuel ih =>
    rw [natDigitsRevFuel]
    by_cases h10 : n < 10
    · rw [if_pos h10]
      simp [digitsVal]
    · rw [if_neg h10, digitsVal, ih (n / 10) (by omega)]
      omega

theorem natDigitsRevFuel_lt_ten (fuel n : Nat) (h : n ≤ fuel) :
    ∀ d ∈ natDigitsRevFuel fuel n, d < 10 := by
  induction fuel generalizing n with
  | zero =>
    have : n = 0 := by omega
    subst this
    intro d hd
    simp [natDigitsRevFuel] at hd
    omega
  | succ fuel ih =>
    rw [natDigitsRevFuel]
    by_cases h10 : n < 10
    · rw [if_pos h10]
      intro d hd
      simp at hd
      omega
    · rw [if_neg h10]
      intro d hd
      rcases List.mem_cons.mp hd with h' | h'
      · omega
      · exact ih (n / 10) (by omega) d h'

theorem digitCh_inj (d e : Nat) (hd : d < 10) (he : e < 10) (h : digitCh d = digitCh e) :
    d = e := by
  interval_cases d <;> interval_cases e <;> revert h <;> decide

theorem map_digitCh_inj (xs : List Nat) : ∀ ys : List Nat, (∀ d ∈ xs, d < 10) →
    (∀ d ∈ ys, d < 10) → xs.map digitCh = ys.map digitCh → xs = ys := by
  induction xs with
  | nil =>
    intro ys _ _ h
    cases ys with
    | nil => rfl
    | cons y ys => simp at h
  | cons x xs ih =>
    intro ys hx hy h
    cases ys with
    | nil => simp at h
    | cons y ys =>
      simp only [List.map_cons, List.cons.injEq] at h
      have hxy : x = y :=
        digitCh_inj x y (hx x (List.mem_cons_self x xs)) (hy y (List.mem_cons_self y ys)) h.1
      have htl : xs = ys :=
        ih ys (fun d hd => hx d (List.mem_cons_of_mem x hd))
          (fun d hd => hy d (List.mem_cons_of_mem y hd)) h.2
      rw [hxy, htl]

theorem natToString_inj (a b : Nat) (h : natToString a = natToString b) : a = b := by
  rw [natToString, natToString] at h
  have h1 : (natDigitsRevFuel a a).reverse.map digitCh =
      (natDigitsRevFuel b b).reverse.map digitCh := congrArg String.data h
  have h2 : (natDigitsRevFuel a a).map digitCh = (natDigitsRevFuel b b).map digitCh := by
    have := congrArg List.reverse h1
    simpa using this
  have h3 : natDigitsRevFuel a a = natDigitsRevFuel b b :=
    map_digitCh_inj _ _ (natDigitsRevFuel_lt_ten a a (Nat.le_refl a))
      (natDigitsRevFuel_lt_ten b b (Nat.le_refl b)) h2
  calc a = digitsVal (natDigitsRevFuel a a) := (digitsVal_natDigitsRevFuel a a (Nat.le_refl a)).symm
    _ = digitsVal (natDigitsRevFuel b b) := by rw [h3]
    _ = b := digitsVal_natDigitsRevFuel b b (Nat.le_refl b)


/-! ## Small step lemmas -/

theorem toStr_utf8Encode (s : String) : toStr (utf8Encode s) = .ok s := by
  rw [toStr, utf8Decode_encode]

theorem intToString_ofNat (n : Nat) : intToString (Int.ofNat n) = natToString n := by
  rw [intToString, if_neg (show ¬Int.ofNat n < 0 from Int.not_lt.mpr (Int.ofNat_nonneg n))]
  rfl

theorem mapInsert_not_mem (es : List (String × JsonValue)) (k : String) (v : JsonValue)
    (h : k ∉ es.map Prod.fst) : mapInsert es k v = es ++ [(k, v)] := by
  induction es with
  | nil => rfl
  | cons p rest ih =>
    obtain ⟨k', v'⟩ := p
    rw [List.map_cons] at h
    simp only [List.mem_cons, not_or] at h
    rw [mapInsert, if_neg (fun hk => h.1 hk.symm), ih h.2]
    rfl

theorem table_pairs_loop_cons (k v : LuaValue) (rest : List (LuaValue × LuaValue))
    (o : JsonValue) :
    table_pairs_loop ((k, v) :: rest) o =
      match luaStringFromLua k with
      | .err e => .err e
      | .panicked m => .panicked m
      | .ok kb =>
        match toStr kb with
        | .err e => .err e
        | .panicked m => .panicked m
        | .ok ks =>
          match from_lua v with
          | .err e => .err e
          | .panicked m => .panicked m
          | .ok jv =>
            match as_object_insert o ks jv with
            | some o2 => table_pairs_loop rest o2
            | none => .panicked "called Option::unwrap on a None value" := rfl

theorem create_table_from_obj_cons (k : String) (v : JsonValue)
    (rest : List (String × JsonValue)) :
    create_table_from_obj ((k, v) :: rest) =
      match into_lua v with
      | .err e => .err e
      | .panicked m => .panicked m
      | .ok lv =>
        match create_table_from_obj rest with
        | .err e => .err e
        | .panicked m => .panicked m
        | .ok tail =>
          match lv with
          | .Nil => .ok tail
          | _ => .ok ((.String (utf8Encode k), lv) :: tail) := rfl

theorem create_table_from_arr_cons (v : JsonValue) (rest : List JsonValue) (i : Nat) :
    create_table_from_arr (v :: rest) i =
      match into_lua v with
      | .err e => .err e
      | .panicked m => .panicked m
      | .ok lv =>
        match create_table_from_arr rest (i + 1) with
        | .err e => .err e
        | .panicked m => .panicked m
        | .ok tail =>
          match lv with
          | .Nil => .ok tail
          | _ => .ok ((.Integer (Int.ofNat i), lv) :: tail) := rfl

/-! ## Absence of panics and step characterizations -/

theorem toStr_no_panic (bs : List Nat) (m : String) : toStr bs ≠ .panicked m := by
  rw [toStr]
  cases utf8Decode bs <;> simp

theorem luaStringFromLua_no_panic (k : LuaValue) (m : String) :
    luaStringFromLua k ≠ .panicked m := by
  cases k <;> simp [luaStringFromLua]

theorem decodeKey_no_panic (k : LuaValue) (m : String) : decodeKey k ≠ .panicked m := by
  rw [decodeKey]
  cases h : luaStringFromLua k with
  | ok kb => exact toStr_no_panic kb m
  | err e => simp
  | panicked m2 => exact absurd h (luaStringFromLua_no_panic k m2)

/-- One iteration of the decoder's table loop on an `Object` accumulator,
phrased through `decodeKey`: the `unwrap` cannot fire because the
accumulator stays an `Object` through `mapInsert`. -/
theorem table_pairs_loop_step (k v : LuaValue) (rest : List (LuaValue × LuaValue))
    (acc : List (String × JsonValue)) :
    table_pairs_loop ((k, v) :: rest) (.Object acc) =
      match decodeKey k with
      | .err e => .err e
      | .panicked m => .panicked m
      | .ok ks =>
        match from_lua v with
        | .err e => .err e
        | .panicked m => .panicked m
        | .ok jv => table_pairs_loop rest (.Object (mapInsert acc ks jv)) := by
  rw [table_pairs_loop_cons, decodeKey]
  cases h1 : luaStringFromLua k with
  | err e => rfl
  | panicked m => rfl
  | ok kb =>
    cases h2 : toStr kb with
    | err e => rfl
    | panicked m => rfl
    | ok ks =>
      cases h3 : from_lua v with
      | err e => rfl
      | panicked m => rfl
      | ok jv => rfl

mutual

theorem into_lua_no_panic : ∀ (v : JsonValue) (m : String), into_lua v ≠ .panicked m
  | .Null, m => by simp [into_lua]
  | .Bool b, m => by simp [into_lua]
  | .String s, m => by simp [into_lua]
  | .Number n, m => by
    cases n with
    | PosInt k =>
      by_cases hk : k ≤ 9223372036854775807 <;> simp [into_lua, N.as_i64, N.as_f64, hk]
    | NegInt i => simp [into_lua, N.as_i64]
    | Float q => simp [into_lua, N.as_i64, N.as_f64]
  | .Object o, m => by
    have ih := create_table_from_obj_no_panic o
    cases hco : create_table_from_obj o with
    | ok entries => simp [into_lua, hco]
    | err e => simp [into_lua, hco]
    | panicked m2 => exact absurd hco (ih m2)
  | .Array a, m => by
    have ih := create_table_from_arr_no_panic a 0
    cases hca : create_table_from_arr a 0 with
    | ok entries => simp [into_lua, hca]
    | err e => simp [into_lua, hca]
    | panicked m2 => exact absurd hca (ih m2)

theorem create_table_from_obj_no_panic :
    ∀ (o : List (String × JsonValue)) (m : String), create_table_from_obj o ≠ .panicked m
  | [], m => by simp [create_table_from_obj]
  | (k, v) :: rest, m => by
    have ihv := into_lua_no_panic v
    have ihr := create_table_from_obj_no_panic rest
    rw [create_table_from_obj_cons]
    cases hv : into_lua v with
    | err e => simp
    | panicked m2 => exact absurd hv (ihv m2)
    | ok lv =>
      cases hr : create_table_from_obj rest with
      | err e => simp
      | panicked m2 => exact absurd hr (ihr m2)
      | ok tail => cases lv <;> simp

theorem create_table_from_arr_no_panic :
    ∀ (a : List JsonValue) (i : Nat) (m : String), create_table_from_arr a i ≠ .panicked m
  | [], i, m => by simp [create_table_from_arr]
  | v :: rest, i, m => by
    have ihv := into_lua_no_panic v
    have ihr := create_table_from_arr_no_panic rest (i + 1)
    rw [create_table_from_arr_cons]
    cases hv : into_lua v with
    | err e => simp
    | panicked m2 => exact absurd hv (ihv m2)
    | ok lv =>
      cases hr : create_table_from_arr rest (i + 1) with
      | err e => simp
      | panicked m2 => exact absurd hr (ihr m2)
      | ok tail => cases lv <;> simp

end

mutual

theorem from_lua_no_panic : ∀ (lv : LuaValue) (m : String), from_lua lv ≠ .panicked m
  | .Nil, m => by simp [from_lua]
  | .Boolean b, m => by simp [from_lua]
  | .LightUserData, m => by simp [from_lua]
  | .Integer i, m => by simp [from_lua]
  | .Number x, m => by simp [from_lua]
  | .String bs, m => by
    cases h : toStr bs with
    | ok s => simp [from_lua, h]
    | err e => simp [from_lua, h]
    | panicked m2 => exact absurd h (toStr_no_panic bs m2)
  | .Table t, m => by
    have ih := table_pairs_loop_no_panic t []
    simpa [from_lua] using ih m
  | .Function, m => by simp [from_lua]
  | .Thread, m => by simp [from_lua]
  | .UserData, m => by simp [from_lua]
  | .Error, m => by simp [from_lua]
  | .Other, m => by simp [from_lua]

theorem table_pairs_loop_no_panic :
    ∀ (es : List (LuaValue × LuaValue)) (acc : List (String × JsonValue)) (m : String),
      table_pairs_loop es (.Object acc) ≠ .panicked m
  | [], acc, m => by simp [table_pairs_loop]
  | (k, v) :: rest, acc, m => by
    have ihv := from_lua_no_panic v
    have ihr := fun acc2 => table_pairs_loop_no_panic rest acc2
    rw [table_pairs_loop_step]
    cases hk : decodeKey k with
    | err e => simp
    | panicked m2 => exact absurd hk (decodeKey_no_panic k m2)
    | ok ks =>
      cases hv : from_lua v with
      | err e => simp
      | panicked m2 => exact absurd hv (ihv m2)
      | ok jv => exact ihr (mapInsert acc ks jv) m

end

/-! ## Success and error propagation of composite conversions -/

theorem LuaResult.isOk_iff {α : Type} (r : LuaResult α) : r.isOk = true ↔ ∃ a, r = .ok a := by
  cases r <;> simp [LuaResult.isOk]

theorem into_lua_Array_eq (a : List JsonValue) :
    into_lua (.Array a) =
      match create_table_from_arr a 0 with
      | .ok entries => .ok (.Table entries)
      | .err e => .err e
      | .panicked m => .panicked m := rfl

theorem into_lua_Object_eq (o : List (String × JsonValue)) :
    into_lua (.Object o) =
      match create_table_from_obj o with
      | .ok entries => .ok (.Table entries)
      | .err e => .err e
      | .panicked m => .panicked m := rfl

theorem from_lua_Table_eq (t : List (LuaValue × LuaValue)) :
    from_lua (.Table t) = table_pairs_loop t (.Object []) := rfl

theorem create_table_from_arr_isOk (a : List JsonValue) : ∀ i : Nat,
    (create_table_from_arr a i).isOk = true ↔ ∀ v ∈ a, (into_lua v).isOk = true := by
  induction a with
  | nil =>
    intro i
    simp [create_table_from_arr, LuaResult.isOk]
  | cons v rest ih =>
    intro i
    rw [create_table_from_arr_cons]
    simp only [List.forall_mem_cons]
    cases hv : into_lua v with
    | err e => simp [LuaResult.isOk]
    | panicked m => exact absurd hv (into_lua_no_panic v m)
    | ok lv =>
      cases hr : create_table_from_arr rest (i + 1) with
      | err e =>
        have h2 := ih (i + 1)
        rw [hr] at h2
        constructor
        · intro h
          exact absurd h (by simp [LuaResult.isOk])
        · rintro ⟨_, hrest⟩
          exact absurd (h2.mpr hrest) (by simp [LuaResult.isOk])
      | panicked m => exact absurd hr (create_table_from_arr_no_panic rest (i + 1) m)
      | ok tail =>
        have h2 := ih (i + 1)
        rw [hr] at h2
        have hrest : ∀ u ∈ rest, (into_lua u).isOk = true := h2.mp rfl
        constructor
        · intro _
          exact ⟨rfl, hrest⟩
        · intro _
          cases lv <;> rfl

theorem create_table_from_obj_isOk (o : List (String × JsonValue)) :
    (create_table_from_obj o).isOk = true ↔ ∀ p ∈ o, (into_lua p.2).isOk = true := by
  induction o with
  | nil => simp [create_table_from_obj, LuaResult.isOk]
  | cons p rest ih =>
    obtain ⟨k, v⟩ := p
    rw [create_table_from_obj_cons]
    simp only [List.forall_mem_cons]
    cases hv : into_lua v with
    | err e => simp [LuaResult.isOk]
    | panicked m => exact absurd hv (into_lua_no_panic v m)
    | ok lv =>
      cases hr : create_table_from_obj rest with
      | err e =>
        rw [hr] at ih
        constructor
        · intro h
          exact absurd h (by simp [LuaResult.isOk])
        · rintro ⟨_, hrest⟩
          exact absurd (ih.mpr hrest) (by simp [LuaResult.isOk])
      | panicked m => exact absurd hr (create_table_from_obj_no_panic rest m)
      | ok tail =>
        rw [hr] at ih
        have hrest : ∀ p ∈ rest, (into_lua p.2).isOk = true := ih.mp rfl
        constructor
        · intro _
          exact ⟨rfl, hrest⟩
        · intro _
          cases lv <;> rfl

theorem table_pairs_loop_isOk (es : List (LuaValue × LuaValue)) :
    ∀ acc : List (String × JsonValue),
      (table_pairs_loop es (.Object acc)).isOk = true ↔
        ∀ p ∈ es, (decodeKey p.1).isOk = true ∧ (from_lua p.2).isOk = true := by
  induction es with
  | nil =>
    intro acc
    simp [table_pairs_loop, LuaResult.isOk]
  | cons p rest ih =>
    obtain ⟨k, v⟩ := p
    intro acc
    rw [table_pairs_loop_step]
    simp only [List.forall_mem_cons]
    cases hk : decodeKey k with
    | err e => simp [LuaResult.isOk]
    | panicked m => exact absurd hk (decodeKey_no_panic k m)
    | ok ks =>
      cases hv : from_lua v with
      | err e => simp [LuaResult.isOk]
      | panicked m => exact absurd hv (from_lua_no_panic v m)
      | ok jv =>
        have h2 := ih (mapInsert acc ks jv)
        constructor
        · intro h
          exact ⟨⟨rfl, rfl⟩, h2.mp h⟩
        · rintro ⟨_, hrest⟩
          exact h2.mpr hrest

theorem create_table_from_arr_err (pre : List JsonValue) :
    ∀ (v : JsonValue) (post : List JsonValue) (i : Nat) (e : MluaError),
      (∀ u ∈ pre, (into_lua u).isOk = true) → into_lua v = .err e →
      create_table_from_arr (pre ++ v :: post) i = .err e := by
  induction pre with
  | nil =>
    intro v post i e _ hv
    rw [List.nil_append, create_table_from_arr_cons, hv]
  | cons u pre2 ih =>
    intro v post i e hpre hv
    rw [List.cons_append, create_table_from_arr_cons]
    obtain ⟨lu, hlu⟩ := (LuaResult.isOk_iff _).mp (hpre u (List.mem_cons_self u pre2))
    rw [hlu, ih v post (i + 1) e (fun w hw => hpre w (List.mem_cons_of_mem u hw)) hv]

theorem create_table_from_obj_err (pre : List (String × JsonValue)) :
    ∀ (k : String) (v : JsonValue) (post : List (String × JsonValue)) (e : MluaError),
      (∀ q ∈ pre, (into_lua q.2).isOk = true) → into_lua v = .err e →
      create_table_from_obj (pre ++ (k, v) :: post) = .err e := by
  induction pre with
  | nil =>
    intro k v post e _ hv
    rw [List.nil_append, create_table_from_obj_cons, hv]
  | cons q pre2 ih =>
    obtain ⟨k2, u⟩ := q
    intro k v post e hpre hv
    rw [List.cons_append, create_table_from_obj_cons]
    obtain ⟨lu, hlu⟩ :=
      (LuaResult.isOk_iff _).mp (hpre (k2, u) (List.mem_cons_self (k2, u) pre2))
    rw [hlu, ih k v post e (fun w hw => hpre w (List.mem_cons_of_mem (k2, u) hw)) hv]

theorem table_pairs_loop_err (pre : List (LuaValue × LuaValue)) :
    ∀ (k v : LuaValue) (post : List (LuaValue × LuaValue)) (acc : List (String × JsonValue))
      (e : MluaError),
      (∀ q ∈ pre, (decodeKey q.1).isOk = true ∧ (from_lua q.2).isOk = true) →
      (decodeKey k = .err e ∨ ((decodeKey k).isOk = true ∧ from_lua v = .err e)) →
      table_pairs_loop (pre ++ (k, v) :: post) (.Object acc) = .err e := by
  induction pre with
  | nil =>
    intro k v post acc e _ hp
    rw [List.nil_append, table_pairs_loop_step]
    rcases hp with hk | ⟨hkOk, hv⟩
    · rw [hk]
    · obtain ⟨ks, hks⟩ := (LuaResult.isOk_iff _).mp hkOk
      rw [hks, hv]
  | cons q pre2 ih =>
    obtain ⟨k2, v2⟩ := q
    intro k v post acc e hpre hp
    have hq := hpre (k2, v2) (List.mem_cons_self (k2, v2) pre2)
    obtain ⟨ks, hks⟩ := (LuaResult.isOk_iff _).mp hq.1
    obtain ⟨jv, hjv⟩ := (LuaResult.isOk_iff _).mp hq.2
    rw [List.cons_append, table_pairs_loop_step, hks, hjv]
    exact ih k v post (mapInsert acc ks jv) e
      (fun w hw => hpre w (List.mem_cons_of_mem (k2, v2) hw)) hp

/-! ## Round-trip: decoding an encoded value -/

theorem natToString_ne (j i : Nat) (h : j ≠ i) : natToString j ≠ natToString i :=
  fun he => h (natToString_inj j i he)

theorem decodeKey_Integer (j : Int) : decodeKey (.Integer j) = .ok (intToString j) := by
  rw [decodeKey]
  simp [luaStringFromLua, toStr_utf8Encode]

theorem decodeKey_String_enc (s : String) : decodeKey (.String (utf8Encode s)) = .ok s := by
  rw [decodeKey]
  simp [luaStringFromLua, toStr_utf8Encode]

theorem normArr_cons_ne (v : JsonValue) (rest : List JsonValue) (i : Nat) (hv : v ≠ .Null) :
    normArr (v :: rest) i = (natToString i, jsonNormalize v) :: normArr rest (i + 1) := by
  cases v <;> first | rfl | exact absurd rfl hv

theorem normObj_cons_ne (k : String) (v : JsonValue) (rest : List (String × JsonValue))
    (hv : v ≠ .Null) :
    normObj ((k, v) :: rest) = (k, jsonNormalize v) :: normObj rest := by
  cases v <;> first | rfl | exact absurd rfl hv

mutual

theorem roundtrip_value : ∀ v : JsonValue, jsonWf v = true → numbersPrecise v = true →
    ∃ lv, into_lua v = .ok lv ∧ from_lua lv = .ok (jsonNormalize v) ∧ (lv = .Nil ↔ v = .Null)
  | .Null => by
    intro _ _
    exact ⟨.Nil, rfl, rfl, by simp⟩
  | .Bool b => by
    intro _ _
    exact ⟨.Boolean b, rfl, rfl, by simp⟩
  | .String s => by
    intro _ _
    refine ⟨.String (utf8Encode s), rfl, ?_, by simp⟩
    simp [from_lua, toStr_utf8Encode, jsonNormalize]
  | .Number n => by
    intro hwf hprec
    have hw : n.wf = true := by simpa [jsonWf] using hwf
    have hp : n.precise = true := by simpa [numbersPrecise] using hprec
    cases n with
    | PosInt p =>
      have hple : p ≤ 9223372036854775807 := by
        by_contra hgt
        rw [N.precise, N.as_i64] at hp
        rw [if_neg hgt] at hp
        simp [N.isFloat] at hp
      refine ⟨.Integer (Int.ofNat p), ?_, ?_, by simp⟩
      · simp [into_lua, N.as_i64, hple]
      · have hv : Value_from_i64 (Int.ofNat p) = .Number (.PosInt p) := by
          rw [Value_from_i64,
            if_neg (show ¬Int.ofNat p < 0 from Int.not_lt.mpr (Int.ofNat_nonneg p))]
          simp
        have hstep : from_lua (.Integer (Int.ofNat p)) = .ok (Value_from_i64 (Int.ofNat p)) := rfl
        rw [hstep, hv]
        rfl
    | NegInt neg =>
      have hneg : neg < 0 := by
        rw [N.wf] at hw
        simp at hw
        exact hw.2
      refine ⟨.Integer neg, ?_, ?_, by simp⟩
      · rfl
      · have hv : Value_from_i64 neg = .Number (.NegInt neg) := by
          rw [Value_from_i64, if_pos hneg]
        have hstep : from_lua (.Integer neg) = .ok (Value_from_i64 neg) := rfl
        rw [hstep, hv]
        rfl
    | Float q =>
      refine ⟨.Number (.finite q), ?_, ?_, by simp⟩
      · rfl
      · rfl
  | .Array a => by
    intro hwf hprec
    have hwl : jsonWfList a = true := by simpa [jsonWf] using hwf
    have hpl : numbersPreciseList a = true := by simpa [numbersPrecise] using hprec
    obtain ⟨entries, henc, hdec⟩ :=
      roundtrip_arr a 0 [] hwl hpl (by intro j _ h; simp at h)
    refine ⟨.Table entries, ?_, ?_, by simp⟩
    · rw [into_lua_Array_eq, henc]
    · rw [from_lua_Table_eq, hdec]
      simp [jsonNormalize]
  | .Object o => by
    intro hwf hprec
    rw [jsonWf, Bool.and_eq_true] at hwf
    have hwo : jsonWfObj o = true := hwf.2
    have hnd : (o.map Prod.fst).Nodup := of_decide_eq_true hwf.1
    have hpo : numbersPreciseObj o = true := by simpa [numbersPrecise] using hprec
    obtain ⟨entries, henc, hdec⟩ :=
      roundtrip_obj o [] hwo hpo hnd (by intro k _ h; simp at h)
    refine ⟨.Table entries, ?_, ?_, by simp⟩
    · rw [into_lua_Object_eq, henc]
    · rw [from_lua_Table_eq, hdec]
      simp [jsonNormalize]

theorem roundtrip_arr : ∀ (a : List JsonValue) (i : Nat) (acc : List (String × JsonValue)),
    jsonWfList a = true → numbersPreciseList a = true →
    (∀ j : Nat, i ≤ j → natToString j ∉ acc.map Prod.fst) →
    ∃ entries, create_table_from_arr a i = .ok entries ∧
      table_pairs_loop entries (.Object acc) = .ok (.Object (acc ++ normArr a i))
  | [], i, acc => by
    intro _ _ _
    refine ⟨[], rfl, ?_⟩
    simp [table_pairs_loop, normArr]
  | v :: rest, i, acc => by
    intro hwf hprec hfresh
    rw [jsonWfList, Bool.and_eq_true] at hwf
    rw [numbersPreciseList, Bool.and_eq_true] at hprec
    obtain ⟨hwv, hwr⟩ := hwf
    obtain ⟨hpv, hpr⟩ := hprec
    obtain ⟨lv, hlv, hlvdec, hnil⟩ := roundtrip_value v hwv hpv
    by_cases hv : v = .Null
    · subst hv
      have h0 : (LuaResult.ok LuaValue.Nil : LuaResult LuaValue) = .ok lv := hlv
      have hlvnil : lv = LuaValue.Nil := by
        injection h0 with h1
        exact h1.symm
      subst hlvnil
      obtain ⟨tailEntries, htail, htaildec⟩ :=
        roundtrip_arr rest (i + 1) acc hwr hpr (fun j hj => hfresh j (by omega))
      refine ⟨tailEntries, ?_, ?_⟩
      · rw [create_table_from_arr_cons, htail]
        rfl
      · rw [show normArr (.Null :: rest) i = normArr rest (i + 1) from rfl]
        exact htaildec
    · have hlvnil : lv ≠ .Nil := fun h => hv (hnil.mp h)
      have hfresh2 : ∀ j, i + 1 ≤ j →
          natToString j ∉ (acc ++ [(natToString i, jsonNormalize v)]).map Prod.fst := by
        intro j hj
        rw [List.map_append, List.mem_append]
        rintro (h | h)
        · exact hfresh j (by omega) h
        · simp at h
          exact absurd h (natToString_ne j i (by omega))
      obtain ⟨tailEntries, htail, htaildec⟩ :=
        roundtrip_arr rest (i + 1) (acc ++ [(natToString i, jsonNormalize v)]) hwr hpr hfresh2
      refine ⟨(.Integer (Int.ofNat i), lv) :: tailEntries, ?_, ?_⟩
      · rw [create_table_from_arr_cons, hlv, htail]
        cases lv <;> first | rfl | exact absurd rfl hlvnil
      · rw [table_pairs_loop_step, decodeKey_Integer, intToString_ofNat, hlvdec]
        dsimp only
        rw [mapInsert_not_mem acc _ _ (hfresh i (Nat.le_refl i)), htaildec,
          normArr_cons_ne v rest i hv, List.append_assoc]
        rfl

theorem roundtrip_obj : ∀ (o : List (String × JsonValue)) (acc : List (String × JsonValue)),
    jsonWfObj o = true → numbersPreciseObj o = true →
    (o.map Prod.fst).Nodup →
    (∀ k ∈ o.map Prod.fst, k ∉ acc.map Prod.fst) →
    ∃ entries, create_table_from_obj o = .ok entries ∧
      table_pairs_loop entries (.Object acc) = .ok (.Object (acc ++ normObj o))
  | [], acc => by
    intro _ _ _ _
    refine ⟨[], rfl, ?_⟩
    simp [table_pairs_loop, normObj]
  | (k, v) :: rest, acc => by
    intro hwf hprec hnd hfresh
    rw [jsonWfObj, Bool.and_eq_true] at hwf
    rw [numbersPreciseObj, Bool.and_eq_true] at hprec
    obtain ⟨hwv, hwr⟩ := hwf
    obtain ⟨hpv, hpr⟩ := hprec
    rw [List.map_cons, List.nodup_cons] at hnd
    have hfreshr : ∀ k2 ∈ rest.map Prod.fst, k2 ∉ acc.map Prod.fst := by
      intro k2 hk2
      exact hfresh k2 (by rw [List.map_cons]; exact List.mem_cons_of_mem k hk2)
    obtain ⟨lv, hlv, hlvdec, hnil⟩ := roundtrip_value v hwv hpv
    by_cases hv : v = .Null
    · subst hv
      have h0 : (LuaResult.ok LuaValue.Nil : LuaResult LuaValue) = .ok lv := hlv
      have hlvnil : lv = LuaValue.Nil := by
        injection h0 with h1
        exact h1.symm
      subst hlvnil
      obtain ⟨tailEntries, htail, htaildec⟩ :=
        roundtrip_obj rest acc hwr hpr hnd.2 hfreshr
      refine ⟨tailEntries, ?_, ?_⟩
      · rw [create_table_from_obj_cons, htail]
        rfl
      · rw [show normObj ((k, .Null) :: rest) = normObj rest from rfl]
        exact htaildec
    · have hlvnil : lv ≠ .Nil := fun h => hv (hnil.mp h)
      have hfresh2 : ∀ k2 ∈ rest.map Prod.fst,
          k2 ∉ (acc ++ [(k, jsonNormalize v)]).map Prod.fst := by
        intro k2 hk2
        rw [List.map_append, List.mem_append]
        rintro (h | h)
        · exact hfreshr k2 hk2 h
        · simp at h
          subst h
          exact hnd.1 hk2
      obtain ⟨tailEntries, htail, htaildec⟩ :=
        roundtrip_obj rest (acc ++ [(k, jsonNormalize v)]) hwr hpr hnd.2 hfresh2
      refine ⟨(.String (utf8Encode k), lv) :: tailEntries, ?_, ?_⟩
      · rw [create_table_from_obj_cons, hlv, htail]
        cases lv <;> first | rfl | exact absurd rfl hlvnil
      · rw [table_pairs_loop_step, decodeKey_String_enc, hlvdec]
        dsimp only
        have hkfresh : k ∉ acc.map Prod.fst :=
          hfresh k (by rw [List.map_cons]; exact List.mem_cons_self k _)
        rw [mapInsert_not_mem acc _ _ hkfresh, htaildec,
          normObj_cons_ne k v rest hv, List.append_assoc]
        rfl

end

/-! ## Bridging lemmas for the claim statements -/

mutual

theorem jsonNormalize_simple : ∀ v : JsonValue, simpleValue v = true → jsonNormalize v = v
  | .Null => by intro _; rfl
  | .Bool b => by intro _; rfl
  | .Number n => by intro _; rfl
  | .String s => by intro _; rfl
  | .Array a => by
    intro h
    rw [simpleValue] at h
    exact absurd h (by simp)
  | .Object o => by
    intro h
    rw [simpleValue] at h
    rw [jsonNormalize, normObj_simple o h]

theorem normObj_simple : ∀ o : List (String × JsonValue), simpleObj o = true → normObj o = o
  | [] => by intro _; rfl
  | (k, v) :: rest => by
    intro h
    rw [simpleObj, Bool.and_eq_true, Bool.and_eq_true] at h
    obtain ⟨⟨hm, hs⟩, hr⟩ := h
    have hvne : v ≠ .Null := by
      intro hveq
      subst hveq
      simp [isNullValue] at hm
    rw [normObj_cons_ne k v rest hvne, jsonNormalize_simple v hs, normObj_simple rest hr]

end

mutual

theorem intOnly_precise : ∀ v : JsonValue, intNumbersOnly v = true → numbersPrecise v = true
  | .Null => fun _ => rfl
  | .Bool b => fun _ => rfl
  | .String s => fun _ => rfl
  | .Number n => by
    intro h
    rw [intNumbersOnly] at h
    rw [numbersPrecise, N.precise, h]
    rfl
  | .Array a => by
    intro h
    rw [intNumbersOnly] at h
    rw [numbersPrecise]
    exact intOnly_preciseList a h
  | .Object o => by
    intro h
    rw [intNumbersOnly] at h
    rw [numbersPrecise]
    exact intOnly_preciseObj o h

theorem intOnly_preciseList :
    ∀ a : List JsonValue, intNumbersOnlyList a = true → numbersPreciseList a = true
  | [] => fun _ => rfl
  | v :: rest => by
    intro h
    rw [intNumbersOnlyList, Bool.and_eq_true] at h
    rw [numbersPreciseList, Bool.and_eq_true]
    exact ⟨intOnly_precise v h.1, intOnly_preciseList rest h.2⟩

theorem intOnly_preciseObj :
    ∀ o : List (String × JsonValue), intNumbersOnlyObj o = true → numbersPreciseObj o = true
  | [] => fun _ => rfl
  | (k, v) :: rest => by
    intro h
    rw [intNumbersOnlyObj, Bool.and_eq_true] at h
    rw [numbersPreciseObj, Bool.and_eq_true]
    exact ⟨intOnly_precise v h.1, intOnly_preciseObj rest h.2⟩

end

theorem into_lua_Number_eq (n : N) :
    into_lua (.Number n) =
      match n.as_i64 with
      | some i => .ok (.Integer i)
      | none =>
        match n.as_f64 with
        | some f => .ok (.Number f)
        | none => .err (.ToLuaConversionError "JsonValue::Number" "Value::Number" none) := rfl

theorem from_lua_String_eq (bs : List Nat) :
    from_lua (.String bs) =
      match toStr bs with
      | .ok s => .ok (.String s)
      | .err e => .err e
      | .panicked m => .panicked m := rfl

/-! # Claim theorems -/

/-- C1 (counterexample): the round-trip invariant fails as stated — decoding
the encoding of the empty Array yields the empty Object, not the Array back
(`from_lua` always rebuilds a table as an Object). -/
theorem c1_counterexample :
    (decode_encode (JsonValue.Array []) = .ok (JsonValue.Array [])) = False := by
  apply eq_false
  intro h
  have h2 : (LuaResult.ok (JsonValue.Object []) : LuaResult JsonValue) =
      .ok (JsonValue.Array []) := h
  injection h2 with h3
  exact JsonValue.noConfusion h3

/-- C1 (amended): `decode(encode(v))` is value-equal to `v` for every
representable Document value (`jsonWf`) within the direct numeric policy's
precision (`numbersPrecise`: exact `i64` or float) that contains no Array at
any depth and no `Null`-valued object member (`simpleValue`); Arrays decode
back as Objects, and `Null` members are dropped because a Lua table stores
nothing under a key set to nil. -/
theorem c1_roundtrip_identity (v : JsonValue) (h1 : jsonWf v = true)
    (h2 : numbersPrecise v = true) (h3 : simpleValue v = true) :
    decode_encode v = .ok v := by
  obtain ⟨lv, henc, hdec, _⟩ := roundtrip_value v h1 h2
  rw [decode_encode, henc]
  dsimp only
  rw [hdec, jsonNormalize_simple v h3]

/-- C1 (witness): the amended round trip at `{"foo": "bar", "n": -3, "x": 0.5}`. -/
theorem c1_roundtrip_identity_witness :
    decode_encode (JsonValue.Object [("foo", JsonValue.String "bar"),
      ("n", JsonValue.Number (.NegInt (-3))), ("x", JsonValue.Number (.Float (1 / 2)))]) =
      .ok (JsonValue.Object [("foo", JsonValue.String "bar"),
        ("n", JsonValue.Number (.NegInt (-3))), ("x", JsonValue.Number (.Float (1 / 2)))]) :=
  c1_roundtrip_identity _ rfl rfl rfl

/-- C2 (counterexample): leaf `Null` values inside a composite are not
preserved — `[null]` decodes back as the empty Object, not as
`{"0": null}`: the encoded `Nil` is never stored in the Lua table. -/
theorem c2_counterexample :
    decode_encode (JsonValue.Array [JsonValue.Null]) = .ok (JsonValue.Object []) ∧
      (decode_encode (JsonValue.Array [JsonValue.Null]) =
        .ok (JsonValue.Object [("0", JsonValue.Null)])) = False := by
  refine ⟨rfl, eq_false ?_⟩
  intro h
  have h2 : (LuaResult.ok (JsonValue.Object []) : LuaResult JsonValue) =
      .ok (JsonValue.Object [("0", JsonValue.Null)]) := h
  injection h2 with h3
  injection h3 with h4
  exact List.noConfusion h4

/-- C2 (amended): for every representable Document value whose Numbers all
have an exact `i64` form, `decode(encode(v))` equals `jsonNormalize v`:
every Array is restructured as an Object keyed by the stringified 0-based
source positions "0", "1", …, Boolean and String leaves are preserved
exactly, and `Null`-valued array elements / object members are dropped
(their position is still consumed). -/
theorem c2_normalized_roundtrip (v : JsonValue) (h1 : jsonWf v = true)
    (h2 : intNumbersOnly v = true) :
    decode_encode v = .ok (jsonNormalize v) := by
  obtain ⟨lv, henc, hdec, _⟩ := roundtrip_value v h1 (intOnly_precise v h2)
  rw [decode_encode, henc]
  dsimp only
  exact hdec

/-- C2 (witness): `[10, "x"]` decodes back as `{"0": 10, "1": "x"}`. -/
theorem c2_normalized_roundtrip_witness :
    decode_encode (JsonValue.Array [JsonValue.Number (.PosInt 10), JsonValue.String "x"]) =
      .ok (JsonValue.Object [("0", JsonValue.Number (.PosInt 10)),
        ("1", JsonValue.String "x")]) :=
  c2_normalized_roundtrip _ rfl rfl

/-- C3: the encoder's Number arm follows the direct strategy: an exact
`i64` form (`as_i64`) becomes a Lua `Integer`, otherwise the `as_f64`
float conversion becomes a Lua `Number`, and a conversion error is
returned exactly when neither form exists.  (With `serde_json`'s default
features `as_f64` never fails, so the error branch is dead code; the
equivalence still characterizes it.) -/
theorem c3_direct_numeric_strategy (n : N) :
    (∀ i : Int, n.as_i64 = some i → into_lua (.Number n) = .ok (.Integer i)) ∧
    (n.as_i64 = none → ∀ f : F64, n.as_f64 = some f → into_lua (.Number n) = .ok (.Number f)) ∧
    ((∃ e, into_lua (.Number n) = .err e) ↔ (n.as_i64 = none ∧ n.as_f64 = none)) := by
  refine ⟨?_, ?_, ?_⟩
  · intro i hi
    rw [into_lua_Number_eq, hi]
  · intro h0 f hf
    rw [into_lua_Number_eq, h0]
    dsimp only
    rw [hf]
  · constructor
    · rintro ⟨e, he⟩
      rw [into_lua_Number_eq] at he
      cases hi : n.as_i64 with
      | some i =>
        rw [hi] at he
        exact absurd he (by simp)
      | none =>
        rw [hi] at he
        dsimp only at he
        cases hf : n.as_f64 with
        | some f =>
          rw [hf] at he
          exact absurd he (by simp)
        | none => exact ⟨rfl, rfl⟩
    · rintro ⟨h1, h2⟩
      refine ⟨.ToLuaConversionError "JsonValue::Number" "Value::Number" none, ?_⟩
      rw [into_lua_Number_eq, h1]
      dsimp only
      rw [h2]

/-- C3 (witness): `Number 5` encodes as `Integer 5`; `Number 0.5` encodes
as `Float 0.5`. -/
theorem c3_direct_numeric_strategy_witness :
    into_lua (.Number (N.PosInt 5)) = .ok (.Integer 5) ∧
      into_lua (.Number (N.Float (1 / 2))) = .ok (.Number (.finite (1 / 2))) :=
  ⟨(c3_direct_numeric_strategy (N.PosInt 5)).1 5 rfl,
    (c3_direct_numeric_strategy (N.Float (1 / 2))).2.1 rfl (.finite (1 / 2)) rfl⟩

/-- C4 (counterexample): decode does not succeed on every Dynamic value
outside {Function, Thread, UserData, LightUserData, Error, Other}: the
String value with byte 0xFF fails (with the invalid-UTF-8 conversion
error, not an UnconvertibleType error). -/
theorem c4_counterexample :
    from_lua (LuaValue.String [255]) =
      .err (.FromLuaConversionError "string" "&str" (some "invalid utf-8")) ∧
      (from_lua (LuaValue.String [255])).isOk = false :=
  ⟨rfl, rfl⟩

/-- C4 (amended): decode fails with a conversion error naming the variant on
each of Function, Thread, UserData, Error, LightUserData and Other, never
panics (every input yields `ok` or `err`), and succeeds unconditionally on
Nil, Boolean, Integer and Number; a String succeeds exactly when its bytes
are valid UTF-8 (and a Table per the key/value rules of C5/C10). -/
theorem c4_unconvertible_types :
    (from_lua .Function =
      .err (.FromLuaConversionError "Function" "JsonValue" (some "Impossible to convert"))) ∧
    (from_lua .Thread =
      .err (.FromLuaConversionError "Thread" "JsonValue" (some "Impossible to convert"))) ∧
    (from_lua .UserData =
      .err (.FromLuaConversionError "UserData" "JsonValue" (some "Impossible to convert"))) ∧
    (from_lua .Error =
      .err (.FromLuaConversionError "Error" "JsonValue" (some "Impossible to convert"))) ∧
    (from_lua .LightUserData =
      .err (.FromLuaConversionError "LightUserData" "JsonValue" (some "Impossible to convert"))) ∧
    (from_lua .Other =
      .err (.FromLuaConversionError "Other" "JsonValue" (some "Impossible to convert"))) ∧
    (∀ lv : LuaValue, (∃ j, from_lua lv = .ok j) ∨ (∃ e, from_lua lv = .err e)) ∧
    (from_lua .Nil = .ok .Null) ∧
    (∀ b : Bool, from_lua (.Boolean b) = .ok (.Bool b)) ∧
    (∀ i : Int, from_lua (.Integer i) = .ok (Value_from_i64 i)) ∧
    (∀ x : F64, from_lua (.Number x) = .ok (Value_from_f64 x)) ∧
    (∀ bs : List Nat,
      (∃ s, from_lua (.String bs) = .ok (.String s)) ↔ (utf8Decode bs).isSome = true) := by
  refine ⟨rfl, rfl, rfl, rfl, rfl, rfl, ?_, rfl, fun b => rfl, fun i => rfl, fun x => rfl, ?_⟩
  · intro lv
    cases h : from_lua lv with
    | ok j => exact Or.inl ⟨j, rfl⟩
    | err e => exact Or.inr ⟨e, rfl⟩
    | panicked m => exact absurd h (from_lua_no_panic lv m)
  · intro bs
    constructor
    · rintro ⟨s, hs⟩
      rw [from_lua_String_eq] at hs
      cases hu : utf8Decode bs with
      | some s2 => simp
      | none =>
        have ht : toStr bs =
            .err (.FromLuaConversionError "string" "&str" (some "invalid utf-8")) := by
          rw [toStr, hu]
        rw [ht] at hs
        exact absurd hs (by simp)
    · intro h
      obtain ⟨s, hu⟩ := Option.isSome_iff_exists.mp h
      have ht : toStr bs = .ok s := by
        rw [toStr, hu]
      exact ⟨s, by rw [from_lua_String_eq, ht]⟩

/-- C5: conversion of a composite value is atomic in both directions.  An
encoded Array/Object succeeds exactly when every nested value does, a
decoded Table succeeds exactly when every key coerces to a UTF-8 string
and every value decodes; and when the first failing member fails with
`e`, the whole call returns exactly `e` (`LuaResult` carries no partial
table or object alongside an error). -/
theorem c5_atomic_composites :
    (∀ a : List JsonValue,
      (into_lua (.Array a)).isOk = true ↔ ∀ v ∈ a, (into_lua v).isOk = true) ∧
    (∀ o : List (String × JsonValue),
      (into_lua (.Object o)).isOk = true ↔ ∀ p ∈ o, (into_lua p.2).isOk = true) ∧
    (∀ t : List (LuaValue × LuaValue),
      (from_lua (.Table t)).isOk = true ↔
        ∀ p ∈ t, (decodeKey p.1).isOk = true ∧ (from_lua p.2).isOk = true) ∧
    (∀ (pre : List JsonValue) (v : JsonValue) (post : List JsonValue) (e : MluaError),
      (∀ u ∈ pre, (into_lua u).isOk = true) → into_lua v = .err e →
      into_lua (.Array (pre ++ v :: post)) = .err e) ∧
    (∀ (pre : List (String × JsonValue)) (k : String) (v : JsonValue)
      (post : List (String × JsonValue)) (e : MluaError),
      (∀ q ∈ pre, (into_lua q.2).isOk = true) → into_lua v = .err e →
      into_lua (.Object (pre ++ (k, v) :: post)) = .err e) ∧
    (∀ (pre : List (LuaValue × LuaValue)) (k v : LuaValue)
      (post : List (LuaValue × LuaValue)) (e : MluaError),
      (∀ q ∈ pre, (decodeKey q.1).isOk = true ∧ (from_lua q.2).isOk = true) →
      (decodeKey k = .err e ∨ ((decodeKey k).isOk = true ∧ from_lua v = .err e)) →
      from_lua (.Table (pre ++ (k, v) :: post)) = .err e) := by
  refine ⟨?_, ?_, ?_, ?_, ?_, ?_⟩
  · intro a
    rw [into_lua_Array_eq]
    cases h : create_table_from_arr a 0 with
    | ok entries =>
      have h2 := create_table_from_arr_isOk a 0
      rw [h] at h2
      simpa [LuaResult.isOk] using h2
    | err e =>
      have h2 := create_table_from_arr_isOk a 0
      rw [h] at h2
      simpa [LuaResult.isOk] using h2
    | panicked m => exact absurd h (create_table_from_arr_no_panic a 0 m)
  · intro o
    rw [into_lua_Object_eq]
    cases h : create_table_from_obj o with
    | ok entries =>
      have h2 := create_table_from_obj_isOk o
      rw [h] at h2
      simpa [LuaResult.isOk] using h2
    | err e =>
      have h2 := create_table_from_obj_isOk o
      rw [h] at h2
      simpa [LuaResult.isOk] using h2
    | panicked m => exact absurd h (create_table_from_obj_no_panic o m)
  · intro t
    rw [from_lua_Table_eq]
    exact table_pairs_loop_isOk t []
  · intro pre v post e hpre hv
    rw [into_lua_Array_eq, create_table_from_arr_err pre v post 0 e hpre hv]
  · intro pre k v post e hpre hv
    rw [into_lua_Object_eq, create_table_from_obj_err pre k v post e hpre hv]
  · intro pre k v post e hpre hp
    rw [from_lua_Table_eq]
    exact table_pairs_loop_err pre k v post [] e hpre hp

/-- C5 (witness): a table whose first pair has an uncoercible boolean key
fails with exactly the key-coercion error; a table with a convertible
pair decodes successfully. -/
theorem c5_atomic_composites_witness :
    from_lua (.Table [(.Boolean true, .Nil)]) =
      .err (.FromLuaConversionError "boolean" "String" (some "expected string or number")) ∧
    (from_lua (.Table [(.Integer 0, .Boolean true)])).isOk = true := by
  constructor
  · exact c5_atomic_composites.2.2.2.2.2 [] (.Boolean true) .Nil []
      (.FromLuaConversionError "boolean" "String" (some "expected string or number"))
      (by intro q hq; exact absurd hq (List.not_mem_nil q)) (Or.inl rfl)
  · refine (c5_atomic_composites.2.2.1 [(.Integer 0, .Boolean true)]).mpr ?_
    intro p hp
    rw [List.mem_singleton] at hp
    subst hp
    exact ⟨rfl, rfl⟩

/-- C6: encoding the Document array `[10, 20, 30]` yields a Table with the
0-based integer keys 0, 1, 2 in source order, and decoding that Table
yields the Object `{"0": 10, "1": 20, "2": 30}` with the keys
stringified. -/
theorem c6_scenario :
    into_lua (.Array [.Number (.PosInt 10), .Number (.PosInt 20), .Number (.PosInt 30)]) =
      .ok (.Table [(.Integer 0, .Integer 10), (.Integer 1, .Integer 20),
        (.Integer 2, .Integer 30)]) ∧
    from_lua (.Table [(.Integer 0, .Integer 10), (.Integer 1, .Integer 20),
        (.Integer 2, .Integer 30)]) =
      .ok (.Object [("0", .Number (.PosInt 10)), ("1", .Number (.PosInt 20)),
        ("2", .Number (.PosInt 30))]) :=
  ⟨rfl, rfl⟩

/-- C7: a Dynamic String whose bytes are not valid UTF-8 makes decode fail
with the invalid-UTF-8 conversion error — no replacement character is
substituted — both as a String value and as a Table key (the whole table
conversion fails on such a key). -/
theorem c7_invalid_utf8 (bs : List Nat) (h : utf8Decode bs = none) :
    from_lua (.String bs) =
      .err (.FromLuaConversionError "string" "&str" (some "invalid utf-8")) ∧
    ∀ (v : LuaValue) (rest : List (LuaValue × LuaValue)),
      from_lua (.Table ((.String bs, v) :: rest)) =
        .err (.FromLuaConversionError "string" "&str" (some "invalid utf-8")) := by
  have ht : toStr bs = .err (.FromLuaConversionError "string" "&str" (some "invalid utf-8")) := by
    rw [toStr, h]
  constructor
  · rw [from_lua_String_eq, ht]
  · intro v rest
    rw [from_lua_Table_eq, table_pairs_loop_step,
      show decodeKey (.String bs) = toStr bs from rfl, ht]

/-- C7 (witness): the single byte 0xFF is not valid UTF-8; decoding it as a
String value and as a table key both fail with the invalid-UTF-8 error. -/
theorem c7_invalid_utf8_witness :
    from_lua (.String [255]) =
      .err (.FromLuaConversionError "string" "&str" (some "invalid utf-8")) ∧
    from_lua (.Table [(.String [255], .Nil)]) =
      .err (.FromLuaConversionError "string" "&str" (some "invalid utf-8")) :=
  ⟨(c7_invalid_utf8 [255] rfl).1, (c7_invalid_utf8 [255] rfl).2 .Nil []⟩

/-- C8: under the fixed-point/100 strategy (modelled from the spec — the
variant is not in src/, which implements the direct strategy),
`encode(Number(250))` yields a Float equal to 2.5, and in general every
Number becomes a Float equal to its value multiplied by 0.01. -/
theorem c8_fixed_point :
    encode_fixed_point_number (.PosInt 250) = .Number (.finite 2.5) ∧
      ∀ n : N, encode_fixed_point_number n = .Number (.finite (n.toRat * (1 / 100))) := by
  constructor
  · have h : N.toRat (.PosInt 250) * (1 / 100) = (2.5 : Rat) := by
      rw [show N.toRat (.PosInt 250) = ((250 : Nat) : Rat) from rfl]
      norm_num
    rw [encode_fixed_point_number, h]
  · intro n
    rfl

/-- C9: decode is total modulo its declared errors — every Dynamic value
yields `ok` or `err`, never the `panicked` outcome: in the Table branch the
accumulator starts as the empty JSON object and `mapInsert` keeps it an
object, so the modelled `as_object_mut().unwrap()` can never fire. -/
theorem c9_decode_total (lv : LuaValue) :
    (∃ j, from_lua lv = .ok j) ∨ (∃ e, from_lua lv = .err e) := by
  cases h : from_lua lv with
  | ok j => exact Or.inl ⟨j, rfl⟩
  | err e => exact Or.inr ⟨e, rfl⟩
  | panicked m => exact absurd h (from_lua_no_panic lv m)

/-- C10: every Table key is coerced to an engine string — an Integer key is
stringified to its decimal form and a Float key to its `tostring` form —
while a Boolean or Table key makes the whole decode fail with the
key-coercion error (keys are never silently dropped). -/
theorem c10_table_key_coercion :
    (∀ (i : Int) (v : LuaValue) (jv : JsonValue), from_lua v = .ok jv →
      from_lua (.Table [(.Integer i, v)]) = .ok (.Object [(intToString i, jv)])) ∧
    (∀ (x : F64) (v : LuaValue) (jv : JsonValue), from_lua v = .ok jv →
      from_lua (.Table [(.Number x, v)]) = .ok (.Object [(fmtF64 x, jv)])) ∧
    (∀ (b : Bool) (v : LuaValue) (rest : List (LuaValue × LuaValue)),
      from_lua (.Table ((.Boolean b, v) :: rest)) =
        .err (.FromLuaConversionError "boolean" "String" (some "expected string or number"))) ∧
    (∀ (es : List (LuaValue × LuaValue)) (v : LuaValue) (rest : List (LuaValue × LuaValue)),
      from_lua (.Table ((.Table es, v) :: rest)) =
        .err (.FromLuaConversionError "table" "String" (some "expected string or number"))) := by
  refine ⟨?_, ?_, fun b v rest => rfl, fun es v rest => rfl⟩
  · intro i v jv hv
    rw [from_lua_Table_eq, table_pairs_loop_step, decodeKey_Integer, hv]
    rfl
  · intro x v jv hv
    have hk : decodeKey (.Number x) = .ok (fmtF64 x) := by
      rw [decodeKey]
      simp [luaStringFromLua, toStr_utf8Encode]
    rw [from_lua_Table_eq, table_pairs_loop_step, hk, hv]
    rfl

/-- C10 (witness): an integer key 1 is coerced to the key "1"; a boolean
key fails the whole decode with the key-coercion error. -/
theorem c10_table_key_coercion_witness :
    from_lua (.Table [(.Integer 1, .Nil)]) = .ok (.Object [("1", .Null)]) ∧
    from_lua (.Table [(.Boolean true, .Nil)]) =
      .err (.FromLuaConversionError "boolean" "String" (some "expected string or number")) :=
  ⟨c10_table_key_coercion.1 1 .Nil .Null rfl, c10_table_key_coercion.2.2.1 true .Nil []⟩

end RluaJson
